import Mathlib

/-!
Verification of the LLM response pipeline in `pkg/llm/llm.go` of the
galah honeypot repository.  The Go code is shallowly embedded: strings
are modelled as `List Char`, the single regular-expression replacement
in `cleanResponse` is modelled as an explicit left-to-right scan, the
`encoding/json` syntax check and decoding are modelled by an executable
fuel-indexed JSON reader over `List Char`, and the go-playground
`validator` `required` checks are modelled by their documented zero-value
semantics (a map passes iff it is non-nil, a string passes iff it is
non-empty).
-/

/-- Coerce a Lean string literal to the `List Char` representation used
throughout this development. -/
def str (s : String) : List Char := s.data

/-- The backtick character, written by code point to keep source text plain. -/
def tickC : Char := Char.ofNat 96

/-- Newline. -/
def nlC : Char := Char.ofNat 10

/-- The percent character (start of a `fmt` verb). -/
def percentC : Char := Char.ofNat 37

/-- Go `unicode.IsSpace`: the white-space code points trimmed by
`strings.TrimSpace`. -/
def isGoSpace (c : Char) : Bool :=
  c.toNat = 9 || c.toNat = 10 || c.toNat = 11 || c.toNat = 12 ||
  c.toNat = 13 || c.toNat = 32 || c.toNat = 133 || c.toNat = 160 ||
  c.toNat = 0x1680 || (0x2000 ≤ c.toNat && c.toNat ≤ 0x200A) ||
  c.toNat = 0x2028 || c.toNat = 0x2029 || c.toNat = 0x202F ||
  c.toNat = 0x205F || c.toNat = 0x3000

/-- Remove trailing characters satisfying `isGoSpace` (the right half of
`strings.TrimSpace`). -/
def trimRight : List Char → List Char
  | [] => []
  | c :: cs => if trimRight cs = [] ∧ isGoSpace c then [] else c :: trimRight cs

/-- `strings.TrimSpace`: drop leading and trailing white space. -/
def trimSpace (l : List Char) : List Char :=
  trimRight (l.dropWhile isGoSpace)

/-- A leading plain code fence, three backticks. -/
def fence : List Char := [tickC, tickC, tickC]

/-- A leading code fence tagged `json`. -/
def fenceJson : List Char := fence ++ str "json"

/-- The anchored alternative of the `cleanResponse` regex (a caret, three
backticks, then an optional `json` tag) can only match at position 0 of the
input; with leftmost-first (Perl) semantics it greedily takes the `json`
tag when present.  `dropLeadingFence` performs exactly that single
anchored removal. -/
def dropLeadingFence (s : List Char) : List Char :=
  if s.take 7 = fenceJson then s.drop 7
  else if s.take 3 = fence then s.drop 3
  else s

/-- After the anchored alternative, `ReplaceAllString` keeps scanning the
rest of the input and deletes every further leftmost, non-overlapping
occurrence of three backticks.  `stripTicks` performs that scan. -/
def stripTicks : List Char → List Char
  | [] => []
  | [c] => [c]
  | [c, d] => [c, d]
  | c :: d :: e :: rest =>
    if c = tickC ∧ d = tickC ∧ e = tickC then stripTicks rest
    else c :: stripTicks (d :: e :: rest)

/-- `cleanResponse` from `llm.go`: apply the regex replacement
(anchored leading fence with optional `json` tag, plus every other
triple-backtick occurrence), then `strings.TrimSpace`. -/
def cleanResponse (input : List Char) : List Char :=
  trimSpace (stripTicks (dropLeadingFence input))

/-- `true` iff the first three characters of `l` are three backticks. -/
def tripleHead : List Char → Bool
  | a :: b :: c :: _ => a = tickC && b = tickC && c = tickC
  | _ => false

/-- `true` iff `l` contains three consecutive backticks anywhere. -/
def hasTriple : List Char → Bool
  | [] => false
  | c :: cs => tripleHead (c :: cs) || hasTriple cs

/-! ## JSON documents

`encoding/json`: a syntax-checked document (`json.Valid`) and decoding
(`json.Unmarshal`) are modelled by one executable reader producing a
`Jval`, the JSON value tree.  Numbers keep their literal spelling: the
struct decoded in `llm.go` has no numeric field, so numeric values only
ever produce type errors and their magnitude is never consulted. -/

inductive Jval where
  | null : Jval
  | bool (b : Bool) : Jval
  | num (lit : List Char) : Jval
  | str (s : List Char) : Jval
  | arr (elems : List Jval) : Jval
  | obj (fields : List (List Char × Jval)) : Jval

/-- JSON inter-token white space (space, tab, newline, carriage return). -/
def isJsonWS (c : Char) : Bool :=
  c.toNat = 32 || c.toNat = 9 || c.toNat = 10 || c.toNat = 13

/-- Skip JSON white space. -/
def skipWS (l : List Char) : List Char := l.dropWhile isJsonWS

/-- Double quote. -/
def qtC : Char := Char.ofNat 34

/-- Backslash. -/
def bsC : Char := Char.ofNat 92

/-- Forward slash. -/
def slashC : Char := Char.ofNat 47

/-- Opening curly brace. -/
def lbC : Char := Char.ofNat 123

/-- Closing curly brace. -/
def rbC : Char := Char.ofNat 125

/-- Opening square bracket. -/
def lsqC : Char := Char.ofNat 91

/-- Closing square bracket. -/
def rsqC : Char := Char.ofNat 93

/-- Colon. -/
def colonC : Char := Char.ofNat 58

/-- Comma. -/
def commaC : Char := Char.ofNat 44

/-- Minus sign. -/
def minusC : Char := Char.ofNat 45

/-- Plus sign. -/
def plusC : Char := Char.ofNat 43

/-- Decimal point. -/
def dotC : Char := Char.ofNat 46

/-- Zero digit. -/
def zeroC : Char := Char.ofNat 48

/-- The Unicode replacement character used for unpaired surrogates. -/
def replC : Char := Char.ofNat 0xFFFD

/-- Value of one hexadecimal digit. -/
def hexVal (c : Char) : Option Nat :=
  if c.isDigit then some (c.toNat - 48)
  else if 97 ≤ c.toNat ∧ c.toNat ≤ 102 then some (c.toNat - 87)
  else if 65 ≤ c.toNat ∧ c.toNat ≤ 70 then some (c.toNat - 55)
  else none

/-- Value of four hexadecimal digits. -/
def hex4 (a b c d : Char) : Option Nat := do
  let x ← hexVal a
  let y ← hexVal b
  let z ← hexVal c
  let w ← hexVal d
  pure (4096 * x + 256 * y + 16 * z + w)

/-- Prepend a decoded character to the string being read. -/
def consProj (c : Char) (r : Option (List Char × List Char)) :
    Option (List Char × List Char) :=
  match r with
  | some (s, rest) => some (c :: s, rest)
  | none => none

/-- Read the remainder of a JSON string after its opening quote,
decoding escapes exactly as `encoding/json` does: the eight simple
escapes, and `\"\\u\"` escapes with Go's surrogate-pair handling
(an unpaired surrogate becomes U+FFFD and scanning resumes after the
escape).  Control characters below 0x20 are rejected, as in the Go
scanner. -/
def parseStringRest : Nat → List Char → Option (List Char × List Char)
  | 0, _ => none
  | _ + 1, [] => none
  | fuel + 1, c :: cs =>
    if c = qtC then some ([], cs)
    else if c = bsC then
      match cs with
      | [] => none
      | e :: cs2 =>
        if e = qtC then consProj qtC (parseStringRest fuel cs2)
        else if e = bsC then consProj bsC (parseStringRest fuel cs2)
        else if e = slashC then consProj slashC (parseStringRest fuel cs2)
        else if e = 'b' then consProj (Char.ofNat 8) (parseStringRest fuel cs2)
        else if e = 'f' then consProj (Char.ofNat 12) (parseStringRest fuel cs2)
        else if e = 'n' then consProj nlC (parseStringRest fuel cs2)
        else if e = 'r' then consProj (Char.ofNat 13) (parseStringRest fuel cs2)
        else if e = 't' then consProj (Char.ofNat 9) (parseStringRest fuel cs2)
        else if e = 'u' then
          match cs2 with
          | h1 :: h2 :: h3 :: h4 :: cs3 =>
            match hex4 h1 h2 h3 h4 with
            | none => none
            | some n =>
              if 0xD800 ≤ n ∧ n < 0xDC00 then
                match cs3 with
                | x1 :: x2 :: g1 :: g2 :: g3 :: g4 :: cs4 =>
                  if x1 = bsC ∧ x2 = 'u' then
                    match hex4 g1 g2 g3 g4 with
                    | some m =>
                      if 0xDC00 ≤ m ∧ m < 0xE000 then
                        consProj (Char.ofNat (0x10000 + 1024 * (n - 0xD800) + (m - 0xDC00)))
                          (parseStringRest fuel cs4)
                      else consProj replC (parseStringRest fuel cs3)
                    | none => consProj replC (parseStringRest fuel cs3)
                  else consProj replC (parseStringRest fuel cs3)
                | _ => consProj replC (parseStringRest fuel cs3)
              else if 0xDC00 ≤ n ∧ n < 0xE000 then
                consProj replC (parseStringRest fuel cs3)
              else consProj (Char.ofNat n) (parseStringRest fuel cs3)
          | _ => none
        else none
    else if c.toNat < 32 then none
    else consProj c (parseStringRest fuel cs)

/-- Read the optional fraction and exponent of a JSON number, returning
the remaining input, or `none` when the tail is malformed. -/
def parseFracExp (l : List Char) : Option (List Char) :=
  let afterFrac : Option (List Char) :=
    match l with
    | c :: cs =>
      if c = dotC then
        match cs with
        | d :: _ => if d.isDigit then some (cs.dropWhile Char.isDigit) else none
        | [] => none
      else some l
    | [] => some l
  match afterFrac with
  | none => none
  | some l2 =>
    match l2 with
    | c :: cs =>
      if c = 'e' || c = 'E' then
        let l3 := match cs with
          | d :: ds => if d = plusC || d = minusC then ds else cs
          | [] => cs
        match l3 with
        | d :: _ => if d.isDigit then some (l3.dropWhile Char.isDigit) else none
        | [] => none
      else some l2
    | [] => some l2

/-- Read a JSON number (RFC 8259 grammar: optional minus, an integer
part with no leading zero, optional fraction, optional exponent),
keeping its literal spelling. -/
def parseNumber (l : List Char) : Option (Jval × List Char) :=
  let l1 := match l with
    | c :: cs => if c = minusC then cs else l
    | [] => l
  match l1 with
  | [] => none
  | c :: cs =>
    if c = zeroC then
      match parseFracExp cs with
      | some rest => some (Jval.num (l.take (l.length - rest.length)), rest)
      | none => none
    else if c.isDigit then
      match parseFracExp (cs.dropWhile Char.isDigit) with
      | some rest => some (Jval.num (l.take (l.length - rest.length)), rest)
      | none => none
    else none

/-- Build the value reader of one fuel level from the member and element
readers of the previous level. -/
def valueFn (pm : List Char → Option (List (List Char × Jval) × List Char))
    (pe : List Char → Option (List Jval × List Char)) :
    List Char → Option (Jval × List Char) := fun l =>
  match l with
  | [] => none
  | c :: cs =>
    if c = qtC then
      match parseStringRest (cs.length + 1) cs with
      | some (s, r) => some (Jval.str s, r)
      | none => none
    else if c = lbC then
      match skipWS cs with
      | [] => none
      | d :: ds =>
        if d = rbC then some (Jval.obj [], ds)
        else
          match pm (d :: ds) with
          | some (ms, r) => some (Jval.obj ms, r)
          | none => none
    else if c = lsqC then
      match skipWS cs with
      | [] => none
      | d :: ds =>
        if d = rsqC then some (Jval.arr [], ds)
        else
          match pe (d :: ds) with
          | some (es, r) => some (Jval.arr es, r)
          | none => none
    else if (c :: cs).take 4 = str "true" then some (Jval.bool true, (c :: cs).drop 4)
    else if (c :: cs).take 5 = str "false" then some (Jval.bool false, (c :: cs).drop 5)
    else if (c :: cs).take 4 = str "null" then some (Jval.null, (c :: cs).drop 4)
    else parseNumber (c :: cs)

/-- Build the object-member reader of one fuel level: a quoted key, a
colon, a value, then either a comma and further members or the closing
brace. -/
def membersFn (pv : List Char → Option (Jval × List Char))
    (pm : List Char → Option (List (List Char × Jval) × List Char)) :
    List Char → Option (List (List Char × Jval) × List Char) := fun l =>
  match l with
  | [] => none
  | c :: cs =>
    if c = qtC then
      match parseStringRest (cs.length + 1) cs with
      | some (k, r1) =>
        match skipWS r1 with
        | [] => none
        | d :: r2 =>
          if d = colonC then
            match pv (skipWS r2) with
            | some (v, r3) =>
              match skipWS r3 with
              | [] => none
              | e :: r4 =>
                if e = commaC then
                  match pm (skipWS r4) with
                  | some (ms, r5) => some ((k, v) :: ms, r5)
                  | none => none
                else if e = rbC then some ([(k, v)], r4)
                else none
            | none => none
          else none
      | none => none
    else none

/-- Build the array-element reader of one fuel level. -/
def elemsFn (pv : List Char → Option (Jval × List Char))
    (pe : List Char → Option (List Jval × List Char)) :
    List Char → Option (List Jval × List Char) := fun l =>
  match pv l with
  | some (v, r1) =>
    match skipWS r1 with
    | [] => none
    | e :: r2 =>
      if e = commaC then
        match pe (skipWS r2) with
        | some (es, r3) => some (v :: es, r3)
        | none => none
      else if e = rsqC then some ([v], r2)
      else none
  | none => none

/-- The fuel-indexed family of JSON readers (values, object members,
array elements).  Every recursive step consumes at least one input
character, so fuel equal to the input length suffices. -/
def parsers (fuel : Nat) :
    (List Char → Option (Jval × List Char)) ×
    (List Char → Option (List (List Char × Jval) × List Char)) ×
    (List Char → Option (List Jval × List Char)) :=
  match fuel with
  | 0 => (fun _ => none, fun _ => none, fun _ => none)
  | n + 1 =>
    let ps := parsers n
    (valueFn ps.2.1 ps.2.2, membersFn ps.1 ps.2.1, elemsFn ps.1 ps.2.2)

/-- Read one complete JSON document with optional surrounding white
space.  `parseDoc s = none` exactly when Go's `json.Valid` rejects `s`. -/
def parseDoc (s : List Char) : Option Jval :=
  match (parsers (s.length + 1)).1 (skipWS s) with
  | some (v, rest) => if skipWS rest = [] then some v else none
  | none => none

/-! ## Decoding into the `JSONResponse` struct and validating it -/

/-- The struct from `llm.go`.  `Headers` is `Option`-valued to record the
difference between a nil Go map (`none`: key absent or JSON `null`) and
an allocated, possibly empty map (`some`): the `validator` package's
`required` tag distinguishes exactly these two for map fields. -/
structure JSONResponse where
  Headers : Option (List (List Char × List Char))
  Body : List Char
deriving DecidableEq

/-- Decoding errors of `json.Unmarshal` for this struct.  The library's
message text is abstracted; only the presence and origin of the error is
modelled, which is all `llm.go` consults. -/
inductive UErr where
  | notObject : UErr
  | headersNotObject : UErr
  | headerValueNotString : UErr
  | bodyNotString : UErr
deriving DecidableEq

/-- Lower-case one ASCII letter. -/
def asciiLower (c : Char) : Char :=
  if 65 ≤ c.toNat ∧ c.toNat ≤ 90 then Char.ofNat (c.toNat + 32) else c

/-- ASCII-case-insensitive key comparison.  `encoding/json` matches a
JSON key to a struct field by exact name and otherwise by `EqualFold`;
since the two field names of `JSONResponse` stay distinct under folding,
folded comparison reproduces Go's match for every key. -/
def foldEq (a b : List Char) : Bool :=
  a.map asciiLower = b.map asciiLower

/-- Go map assignment `m[k] = v`: replace the binding of `k` when
present, otherwise append it. -/
def upsert : List (List Char × List Char) → List Char → List Char →
    List (List Char × List Char)
  | [], k, v => [(k, v)]
  | (k0, v0) :: rest, k, v =>
    if k0 = k then (k0, v) :: rest else (k0, v0) :: upsert rest k v

/-- Decode a JSON object into a Go `map[string]string`, merging into the
map `m` already established for the field.  A string value is stored; a
`null` value stores the zero string; any other value is a type error. -/
def unmarshalHeaders (m : List (List Char × List Char)) :
    List (List Char × Jval) → Except UErr (List (List Char × List Char))
  | [] => .ok m
  | (k, val) :: rest =>
    match val with
    | Jval.str s => unmarshalHeaders (upsert m k s) rest
    | Jval.null => unmarshalHeaders (upsert m k []) rest
    | _ => .error UErr.headerValueNotString

/-- Decode one JSON object member into the struct being built: the
`headers` key expects an object (or `null`, which resets the map to
nil), the `body` key expects a string (`null` is a no-op), and unknown
keys are ignored. -/
def applyField (r : JSONResponse) (k : List Char) (v : Jval) :
    Except UErr JSONResponse :=
  if foldEq k (str "headers") then
    match v with
    | Jval.null => .ok { r with Headers := none }
    | Jval.obj entries =>
      match unmarshalHeaders (r.Headers.getD []) entries with
      | .ok m => .ok { r with Headers := some m }
      | .error e => .error e
    | _ => .error UErr.headersNotObject
  else if foldEq k (str "body") then
    match v with
    | Jval.str s => .ok { r with Body := s }
    | Jval.null => .ok r
    | _ => .error UErr.bodyNotString
  else .ok r

/-- Decode the members of the top-level object in order. -/
def applyFields (r : JSONResponse) :
    List (List Char × Jval) → Except UErr JSONResponse
  | [] => .ok r
  | (k, v) :: rest =>
    match applyField r k v with
    | .ok r2 => applyFields r2 rest
    | .error e => .error e

/-- `json.Unmarshal(jsonBytes, &resp)` for `resp : JSONResponse`: the
document must be an object (decoded member by member into the zero
struct) or `null` (a no-op leaving the zero struct). -/
def unmarshalResp : Jval → Except UErr JSONResponse
  | Jval.null => .ok { Headers := none, Body := [] }
  | Jval.obj fields => applyFields { Headers := none, Body := [] } fields
  | _ => .error UErr.notObject

/-- The fields of `JSONResponse` failing their `validate:"required"`
tag, in struct order.  Per the `validator` package, `required` on a map
field fails exactly when the map is nil, and on a string field exactly
when the string is empty (the zero value). -/
def requiredFailures (r : JSONResponse) : List (List Char) :=
  (if r.Headers = none then [str "Headers"] else []) ++
    (if r.Body = [] then [str "Body"] else [])

/-- The three error origins of `ValidateJSON`, in the order the function
checks them: the `json.Valid` syntax check, the `json.Unmarshal` call,
and `validator.Struct`. -/
inductive VErr where
  | notValidJSON : VErr
  | unmarshalling (e : UErr) : VErr
  | validation (fields : List (List Char)) : VErr
deriving DecidableEq

/-- The error text `ValidateJSON` produces: the first prefix of each
branch is the literal from `llm.go`; the library-generated remainder of
the unmarshal and validator messages is abstracted by a stable
rendering. -/
def renderVErr : VErr → List Char
  | VErr.notValidJSON => str "input is not valid JSON"
  | VErr.unmarshalling _ => str "error unmarshalling JSON: " ++ str "unmarshal type error"
  | VErr.validation fs =>
    str "validation error: " ++
      (fs.map (fun f => f ++ str " failed on the required tag")).foldr (· ++ ·) []

/-- `ValidateJSON` from `llm.go`: reject a syntactically invalid
document, then decode it, then check the `required` constraints. -/
def ValidateJSON (jsonStr : List Char) : Option VErr :=
  match parseDoc jsonStr with
  | none => some VErr.notValidJSON
  | some v =>
    match unmarshalResp v with
    | .error e => some (VErr.unmarshalling e)
    | .ok r =>
      match requiredFailures r with
      | [] => none
      | fs => some (VErr.validation fs)

/-- The part of `ValidateJSON` after the syntax check, acting on the
parsed document. -/
def validateJval (v : Jval) : Option VErr :=
  match unmarshalResp v with
  | .error e => some (VErr.unmarshalling e)
  | .ok r =>
    match requiredFailures r with
    | [] => none
    | fs => some (VErr.validation fs)

/-! ## The generation pipeline `GenerateLLMResponse` -/

/-- One candidate completion returned by the backend
(`llms.ContentChoice`; only the `Content` field is consulted). -/
structure ContentChoice where
  Content : List Char
deriving DecidableEq

/-- The backend response (`llms.ContentResponse`). -/
structure ContentResponse where
  Choices : List ContentChoice
deriving DecidableEq

/-- The error outcomes of `GenerateLLMResponse`, one constructor per
`errors.New` / `fmt.Errorf` site in `llm.go`. -/
inductive GenErr where
  | contentGeneration (cause : List Char) : GenErr
  | emptyNilResponse : GenErr
  | emptyNoChoices : GenErr
  | emptyContent : GenErr
  | invalidJSONResponse (e : VErr) : GenErr
deriving DecidableEq

/-- The exact error strings built in `GenerateLLMResponse`. -/
def errMsg : GenErr → List Char
  | GenErr.contentGeneration cause => str "contentGenerationError: " ++ cause
  | GenErr.emptyNilResponse => str "emptyLLMResponse: response is nil"
  | GenErr.emptyNoChoices => str "emptyLLMResponse: no choices available"
  | GenErr.emptyContent => str "emptyLLMResponse: content of first choice is empty"
  | GenErr.invalidJSONResponse e => str "invalidJSONResponse: " ++ renderVErr e

/-- `GenerateLLMResponse` from `llm.go`, starting from the outcome of
the `model.GenerateContent` network call: `.error cause` models a
transport failure, `.ok none` a nil response pointer, `.ok (some r)` a
response.  The returned pair is the `(string, error)` pair of the Go
function, with `none` standing for a nil error. -/
def GenerateLLMResponse (backend : Except (List Char) (Option ContentResponse)) :
    List Char × Option GenErr :=
  match backend with
  | .error cause => ([], some (GenErr.contentGeneration cause))
  | .ok none => ([], some GenErr.emptyNilResponse)
  | .ok (some response) =>
    match response.Choices with
    | [] => ([], some GenErr.emptyNoChoices)
    | choice :: _ =>
      if choice.Content = [] then ([], some GenErr.emptyContent)
      else
        let resp := cleanResponse choice.Content
        match ValidateJSON resp with
        | some e => (resp, some (GenErr.invalidJSONResponse e))
        | none => (resp, none)

/-! ## Prompt construction `CreateMessageContent` -/

/-- The two chat roles used by `llm.go` (`llms.ChatMessageTypeSystem`
and `llms.ChatMessageTypeHuman`). -/
inductive ChatMessageType where
  | system : ChatMessageType
  | human : ChatMessageType
deriving DecidableEq

/-- One role-tagged message (`llms.TextParts(role, text)` builds a
`MessageContent` whose single text part is `text`). -/
structure MessageContent where
  Role : ChatMessageType
  Text : List Char
deriving DecidableEq

/-- `fmt.Sprintf` for a template whose only verb is a single `%s`, the
shape of the user-prompt template consumed by `CreateMessageContent`:
the first `%s` is replaced by the argument. -/
def sprintf1 : List Char → List Char → List Char
  | [], _ => []
  | c :: cs, arg =>
    match cs with
    | d :: ds => if c = percentC ∧ d = 's' then arg ++ ds else c :: sprintf1 (d :: ds) arg
    | [] => [c]

/-- The capability table `supportsSystemPrompt` from `llm.go`, a Go map
whose lookup yields `false` for absent keys. -/
def supportsSystemPromptTable : List (List Char × Bool) :=
  [(str "openai", true), (str "anthropic", true), (str "ollama", true), (str "cohere", true)]

/-- Look a provider up in the capability table (Go map indexing). -/
def supportsSystemPrompt (provider : List Char) : Bool :=
  (supportsSystemPromptTable.lookup provider).getD false

/-- `CreateMessageContent` from `llm.go`, given the serialized request
text produced by `httputil.DumpRequest` (the error path of a failed dump
is not modelled: the claims concern a dumped request), the two prompt
templates, and the provider name. -/
def CreateMessageContent (httpReq : List Char) (systemPromptTpl userPromptTpl : List Char)
    (provider : List Char) : List MessageContent :=
  let userPrompt := sprintf1 userPromptTpl (trimSpace httpReq)
  let systemPrompt := systemPromptTpl
  if supportsSystemPrompt provider then
    [{ Role := ChatMessageType.system, Text := systemPrompt },
     { Role := ChatMessageType.human, Text := userPrompt }]
  else
    [{ Role := ChatMessageType.human, Text := systemPrompt ++ nlC :: userPrompt }]

/-! ## Provider initialization `New` -/

/-- The client handle returned by each provider initializer, tagged by
provider. -/
inductive LLMClient where
  | openai : LLMClient
  | googleai : LLMClient
  | vertex : LLMClient
  | anthropic : LLMClient
  | cohere : LLMClient
  | ollama : LLMClient
deriving DecidableEq

/-- Modelled from the spec: `initOpenAIClient` lives outside `pkg/llm`
in sources not included here; per the spec an initializer only
establishes a client handle (credential failures are out of scope for
the dispatch claims). -/
def initOpenAIClient : Except (List Char) LLMClient := .ok LLMClient.openai

/-- Modelled from the spec: see `initOpenAIClient`. -/
def initGoogleAIClient : Except (List Char) LLMClient := .ok LLMClient.googleai

/-- Modelled from the spec: see `initOpenAIClient`. -/
def initVertexClient : Except (List Char) LLMClient := .ok LLMClient.vertex

/-- Modelled from the spec: see `initOpenAIClient`. -/
def initAnthropicClient : Except (List Char) LLMClient := .ok LLMClient.anthropic

/-- Modelled from the spec: see `initOpenAIClient`. -/
def initCohereClient : Except (List Char) LLMClient := .ok LLMClient.cohere

/-- Modelled from the spec: see `initOpenAIClient`. -/
def initOllamaClient : Except (List Char) LLMClient := .ok LLMClient.ollama

/-- `New` from `llm.go`: the provider switch.  Go's `switch` on a
string compares for equality case by case and falls through to the
`default` arm, which returns a nil client and the
`unsupported llm provider` error. -/
def New (provider : List Char) : Except (List Char) LLMClient :=
  if provider = str "openai" then initOpenAIClient
  else if provider = str "googleai" then initGoogleAIClient
  else if provider = str "gcp-vertex" then initVertexClient
  else if provider = str "anthropic" then initAnthropicClient
  else if provider = str "cohere" then initCohereClient
  else if provider = str "ollama" then initOllamaClient
  else .error (str "unsupported llm provider")

/-! ## Properties of the cleaning pass -/

theorem hasTriple_cons (c : Char) (cs : List Char) :
    hasTriple (c :: cs) = (tripleHead (c :: cs) || hasTriple cs) := rfl

theorem tripleHead_eq_false_of_ne (c : Char) (l : List Char) (h : c ≠ tickC) :
    tripleHead (c :: l) = false := by
  match l with
  | [] => rfl
  | [d] => rfl
  | d :: e :: r => simp [tripleHead, h]

theorem stripTicks_cons_of_ne (c : Char) (l : List Char) (h : c ≠ tickC) :
    stripTicks (c :: l) = c :: stripTicks l := by
  match l with
  | [] => rfl
  | [d] => rfl
  | d :: e :: r => simp [stripTicks, h]

theorem stripTicks_cons3 (c d e : Char) (r : List Char) :
    stripTicks (c :: d :: e :: r) =
      if c = tickC ∧ d = tickC ∧ e = tickC then stripTicks r
      else c :: stripTicks (d :: e :: r) := rfl

theorem tripleHead_append (l l2 : List Char) (h : tripleHead l = true) :
    tripleHead (l ++ l2) = true := by
  match l with
  | [] => simp [tripleHead] at h
  | [a] => simp [tripleHead] at h
  | [a, b] => simp [tripleHead] at h
  | a :: b :: c :: r => simpa [tripleHead] using h

theorem hasTriple_append_left (l1 l2 : List Char) (h : hasTriple l1 = true) :
    hasTriple (l1 ++ l2) = true := by
  induction l1 with
  | nil => simp [hasTriple] at h
  | cons c cs ih =>
    rw [List.cons_append, hasTriple_cons]
    rw [hasTriple_cons] at h
    cases htr : tripleHead (c :: cs) with
    | true =>
      have := tripleHead_append (c :: cs) l2 htr
      rw [List.cons_append] at this
      simp [this]
    | false =>
      rw [htr] at h
      simp only [Bool.false_or] at h
      simp [ih h]

theorem hasTriple_append_right (l1 l2 : List Char) (h : hasTriple l2 = true) :
    hasTriple (l1 ++ l2) = true := by
  induction l1 with
  | nil => simpa
  | cons c cs ih =>
    rw [List.cons_append, hasTriple_cons, ih]
    simp

theorem noTriple_append_parts (l1 l2 : List Char) (h : hasTriple (l1 ++ l2) = false) :
    hasTriple l1 = false ∧ hasTriple l2 = false := by
  constructor
  · cases h1 : hasTriple l1 with
    | false => rfl
    | true => rw [hasTriple_append_left l1 l2 h1] at h; exact absurd h (by simp)
  · cases h2 : hasTriple l2 with
    | false => rfl
    | true => rw [hasTriple_append_right l1 l2 h2] at h; exact absurd h (by simp)

theorem stripTicks_of_noTriple (l : List Char) (h : hasTriple l = false) :
    stripTicks l = l := by
  induction l with
  | nil => rfl
  | cons c cs ih =>
    cases cs with
    | nil => rfl
    | cons d cs2 =>
      cases cs2 with
      | nil => rfl
      | cons e r =>
        rw [hasTriple_cons] at h
        rcases Bool.or_eq_false_iff.mp h with ⟨h1, h2⟩
        have hne : ¬(c = tickC ∧ d = tickC ∧ e = tickC) := by
          rintro ⟨hc, hd, he⟩
          subst hc; subst hd; subst he
          simp [tripleHead] at h1
        rw [stripTicks_cons3, if_neg hne, ih h2]

theorem stripTicks_noTriple (l : List Char) : hasTriple (stripTicks l) = false := by
  have H : ∀ n (l : List Char), l.length ≤ n → hasTriple (stripTicks l) = false := by
    intro n
    induction n with
    | zero =>
      intro l hl
      have : l = [] := List.length_eq_zero.mp (Nat.le_zero.mp hl)
      subst this; rfl
    | succ n ih =>
      intro l hl
      cases l with
      | nil => rfl
      | cons c cs =>
        cases cs with
        | nil => rfl
        | cons d cs2 =>
          cases cs2 with
          | nil => rfl
          | cons e r =>
            by_cases hc : c = tickC ∧ d = tickC ∧ e = tickC
            · rw [stripTicks_cons3, if_pos hc]
              exact ih r (by simp at hl; omega)
            · rw [stripTicks_cons3, if_neg hc]
              have hrec : hasTriple (stripTicks (d :: e :: r)) = false :=
                ih (d :: e :: r) (by simp at hl ⊢; omega)
              rw [hasTriple_cons, hrec, Bool.or_false]
              by_cases h1 : c = tickC
              · by_cases h2 : d = tickC
                · have he : ¬ e = tickC := fun hE => hc ⟨h1, h2, hE⟩
                  have hde : stripTicks (d :: e :: r) = d :: stripTicks (e :: r) := by
                    cases r with
                    | nil => rfl
                    | cons r0 rs =>
                      have hcond : ¬(d = tickC ∧ e = tickC ∧ r0 = tickC) :=
                        fun hx => he hx.2.1
                      rw [stripTicks_cons3, if_neg hcond]
                  have heC : stripTicks (e :: r) = e :: stripTicks r :=
                    stripTicks_cons_of_ne e r he
                  rw [hde, heC]
                  simp [tripleHead, he]
                · have hd2 : stripTicks (d :: e :: r) = d :: stripTicks (e :: r) :=
                    stripTicks_cons_of_ne d (e :: r) h2
                  rw [hd2]
                  cases hX : stripTicks (e :: r) with
                  | nil => rfl
                  | cons x xs => simp [tripleHead, h2]
              · exact tripleHead_eq_false_of_ne c _ h1
  exact H l.length l (le_refl _)

theorem stripTicks_sublist (l : List Char) : (stripTicks l).Sublist l := by
  have H : ∀ n (l : List Char), l.length ≤ n → (stripTicks l).Sublist l := by
    intro n
    induction n with
    | zero =>
      intro l hl
      have : l = [] := List.length_eq_zero.mp (Nat.le_zero.mp hl)
      subst this; exact List.Sublist.refl []
    | succ n ih =>
      intro l hl
      cases l with
      | nil => exact List.Sublist.refl []
      | cons c cs =>
        cases cs with
        | nil => exact List.Sublist.refl [c]
        | cons d cs2 =>
          cases cs2 with
          | nil => exact List.Sublist.refl [c, d]
          | cons e r =>
            by_cases hc : c = tickC ∧ d = tickC ∧ e = tickC
            · rw [stripTicks_cons3, if_pos hc]
              have h1 : (stripTicks r).Sublist r := ih r (by simp at hl; omega)
              exact h1.trans ((List.sublist_cons_self e r).trans
                ((List.sublist_cons_self d (e :: r)).trans
                  (List.sublist_cons_self c (d :: e :: r))))
            · rw [stripTicks_cons3, if_neg hc]
              exact List.Sublist.cons₂ c (ih (d :: e :: r) (by simp at hl ⊢; omega))
  exact H l.length l (le_refl _)

theorem stripTicks_append_fence (l : List Char) (h : hasTriple l = false) :
    stripTicks (l ++ fence) = l := by
  induction l with
  | nil => rfl
  | cons c cs ih =>
    rw [hasTriple_cons] at h
    rcases Bool.or_eq_false_iff.mp h with ⟨h1, h2⟩
    by_cases hc : c = tickC
    · cases cs with
      | nil => subst hc; decide
      | cons d cs2 =>
        by_cases hd : d = tickC
        · cases cs2 with
          | nil => subst hc; subst hd; decide
          | cons e r =>
            have he : ¬ e = tickC := by
              intro hE
              subst hc; subst hd; subst hE
              simp [tripleHead] at h1
            have hcond : ¬(c = tickC ∧ d = tickC ∧ e = tickC) := fun hx => he hx.2.2
            rw [List.cons_append, List.cons_append, List.cons_append,
              stripTicks_cons3, if_neg hcond]
            have := ih h2
            rw [List.cons_append, List.cons_append] at this
            rw [this]
        · cases cs2 with
          | nil =>
            have hcond : ¬(c = tickC ∧ d = tickC ∧ tickC = tickC) := fun hx => hd hx.2.1
            have s1 : ([c, d] ++ fence) = c :: d :: tickC :: tickC :: [tickC] := rfl
            rw [s1, stripTicks_cons3, if_neg hcond,
              stripTicks_cons_of_ne d (tickC :: tickC :: [tickC]) hd]
            have s3 : stripTicks (tickC :: tickC :: [tickC]) = [] := by decide
            rw [s3]
          | cons e r =>
            have hcond : ¬(c = tickC ∧ d = tickC ∧ e = tickC) := fun hx => hd hx.2.1
            rw [List.cons_append, List.cons_append, List.cons_append,
              stripTicks_cons3, if_neg hcond]
            have := ih h2
            rw [List.cons_append, List.cons_append] at this
            rw [this]
    · rw [List.cons_append, stripTicks_cons_of_ne c (cs ++ fence) hc, ih h2]

theorem trimRight_exists_append (l : List Char) : ∃ k, l = trimRight l ++ k := by
  induction l with
  | nil => exact ⟨[], rfl⟩
  | cons c cs ih =>
    by_cases h : trimRight cs = [] ∧ isGoSpace c
    · refine ⟨c :: cs, ?_⟩
      simp only [trimRight]
      rw [if_pos h]
      rfl
    · rcases ih with ⟨k, hk⟩
      refine ⟨k, ?_⟩
      simp only [trimRight]
      rw [if_neg h, List.cons_append]
      exact congrArg (c :: ·) hk

theorem trimRight_idem (l : List Char) : trimRight (trimRight l) = trimRight l := by
  induction l with
  | nil => rfl
  | cons c cs ih =>
    by_cases h : trimRight cs = [] ∧ isGoSpace c
    · simp only [trimRight]
      rw [if_pos h]
      rfl
    · conv_lhs => rw [trimRight, if_neg h]
      simp only [trimRight]
      rw [ih, if_neg h]

theorem dropWhile_head_not (p : Char → Bool) (l : List Char) :
    l.dropWhile p = [] ∨ ∃ c cs, l.dropWhile p = c :: cs ∧ p c = false := by
  induction l with
  | nil => exact Or.inl rfl
  | cons c cs ih =>
    by_cases h : p c
    · rw [List.dropWhile_cons, if_pos h]
      exact ih
    · right
      exact ⟨c, cs, by rw [List.dropWhile_cons, if_neg h], by simpa using h⟩

theorem trimSpace_idem (l : List Char) : trimSpace (trimSpace l) = trimSpace l := by
  unfold trimSpace
  have key : (trimRight (l.dropWhile isGoSpace)).dropWhile isGoSpace =
      trimRight (l.dropWhile isGoSpace) := by
    rcases dropWhile_head_not isGoSpace l with h | ⟨c, cs, hcs, hc⟩
    · rw [h]; rfl
    · rw [hcs]
      by_cases h2 : trimRight cs = [] ∧ isGoSpace c
      · simp only [trimRight]
        rw [if_pos h2]
        rfl
      · simp only [trimRight]
        rw [if_neg h2, List.dropWhile_cons, if_neg (by simp [hc])]
  rw [key, trimRight_idem]

theorem hasTriple_trimSpace (l : List Char) (h : hasTriple l = false) :
    hasTriple (trimSpace l) = false := by
  unfold trimSpace
  have h1 : hasTriple (l.dropWhile isGoSpace) = false := by
    refine (noTriple_append_parts (l.takeWhile isGoSpace) (l.dropWhile isGoSpace) ?_).2
    rw [List.takeWhile_append_dropWhile]
    exact h
  rcases trimRight_exists_append (l.dropWhile isGoSpace) with ⟨k, hk⟩
  exact (noTriple_append_parts _ k (by rw [← hk]; exact h1)).1

theorem hasTriple_of_take3 (l : List Char) (h : l.take 3 = fence) :
    hasTriple l = true := by
  cases l with
  | nil => exact absurd h (by decide)
  | cons a l1 =>
    cases l1 with
    | nil => exact absurd h (by
        intro hc
        rw [show (([a] : List Char)).take 3 = [a] from rfl] at hc
        exact absurd (congrArg List.length hc) (by simp [fence]))
    | cons b l2 =>
      cases l2 with
      | nil => exact absurd h (by
          intro hc
          rw [show (([a, b] : List Char)).take 3 = [a, b] from rfl] at hc
          exact absurd (congrArg List.length hc) (by simp [fence]))
      | cons c r =>
        rw [show (a :: b :: c :: r).take 3 = [a, b, c] from rfl,
          show fence = [tickC, tickC, tickC] from rfl] at h
        injection h with ha h
        injection h with hb h
        injection h with hc _
        rw [hasTriple_cons]
        have : tripleHead (a :: b :: c :: r) = true := by simp [tripleHead, ha, hb, hc]
        simp [this]

theorem dropLeadingFence_of_noTriple (l : List Char) (h : hasTriple l = false) :
    dropLeadingFence l = l := by
  unfold dropLeadingFence
  have h3 : ¬ l.take 3 = fence := by
    intro hc
    rw [hasTriple_of_take3 l hc] at h
    exact absurd h (by simp)
  have h7 : ¬ l.take 7 = fenceJson := by
    intro hc
    apply h3
    have step := congrArg (List.take 3) hc
    rw [List.take_take] at step
    have : l.take 3 = fenceJson.take 3 := by simpa using step
    rw [this]
    decide
  rw [if_neg h7, if_neg h3]

theorem dropLeadingFence_json (x : List Char) :
    dropLeadingFence (fenceJson ++ x) = x := by
  unfold dropLeadingFence
  have h7 : (fenceJson ++ x).take 7 = fenceJson := List.take_left' (by decide)
  rw [if_pos h7]
  exact List.drop_left fenceJson x

theorem take4_append_fence (body : List Char) (hx : body.take 4 ≠ str "json") :
    (body ++ fence).take 4 ≠ str "json" := by
  match body with
  | [] => decide
  | [a] =>
    intro hc
    rw [show (([a] : List Char) ++ fence).take 4 = [a, tickC, tickC, tickC] from rfl,
      show str "json" = ['j', 's', 'o', 'n'] from rfl] at hc
    injection hc with h1 h
    injection h with h2 _
    exact absurd h2 (by decide)
  | [a, b] =>
    intro hc
    rw [show (([a, b] : List Char) ++ fence).take 4 = [a, b, tickC, tickC] from rfl,
      show str "json" = ['j', 's', 'o', 'n'] from rfl] at hc
    injection hc with h1 h
    injection h with h2 h
    injection h with h3 _
    exact absurd h3 (by decide)
  | [a, b, c] =>
    intro hc
    rw [show (([a, b, c] : List Char) ++ fence).take 4 = [a, b, c, tickC] from rfl,
      show str "json" = ['j', 's', 'o', 'n'] from rfl] at hc
    injection hc with h1 h
    injection h with h2 h
    injection h with h3 h
    injection h with h4 _
    exact absurd h4 (by decide)
  | a :: b :: c :: d :: r =>
    intro hc
    apply hx
    rw [show ((a :: b :: c :: d :: r) ++ fence).take 4 = [a, b, c, d] from rfl] at hc
    rw [show (a :: b :: c :: d :: r).take 4 = [a, b, c, d] from rfl]
    exact hc

theorem dropLeadingFence_plain (x : List Char) (hx : x.take 4 ≠ str "json") :
    dropLeadingFence (fence ++ x) = x := by
  unfold dropLeadingFence
  have h7 : ¬ (fence ++ x).take 7 = fenceJson := by
    intro hc
    apply hx
    rw [List.take_append_eq_append_take,
      show fence.take 7 = fence from by decide,
      show 7 - fence.length = 4 from by decide] at hc
    exact List.append_cancel_left hc
  rw [if_neg h7]
  have h3 : (fence ++ x).take 3 = fence := List.take_left' (by decide)
  rw [if_pos h3]
  exact List.drop_left fence x

theorem cleanResponse_of_noTriple (l : List Char) (h : hasTriple l = false) :
    cleanResponse l = trimSpace l := by
  unfold cleanResponse
  rw [dropLeadingFence_of_noTriple l h, stripTicks_of_noTriple l h]

theorem hasTriple_cleanResponse (s : List Char) : hasTriple (cleanResponse s) = false := by
  unfold cleanResponse
  exact hasTriple_trimSpace _ (stripTicks_noTriple _)

/-! ## Properties of decoding and validation -/

theorem unmarshalHeaders_strings (hs : List (List Char × List Char)) :
    ∀ m : List (List Char × List Char),
      ∃ m2, unmarshalHeaders m (hs.map fun p => (p.1, Jval.str p.2)) = .ok m2 := by
  induction hs with
  | nil => exact fun m => ⟨m, rfl⟩
  | cons p rest ih =>
    intro m
    rcases ih (upsert m p.1 p.2) with ⟨m2, hm⟩
    exact ⟨m2, hm⟩

theorem validateJval_body_empty (hs : List (List Char × List Char)) :
    validateJval (Jval.obj
      [(str "headers", Jval.obj (hs.map fun p => (p.1, Jval.str p.2))),
       (str "body", Jval.str [])]) = some (VErr.validation [str "Body"]) := by
  rcases unmarshalHeaders_strings hs [] with ⟨m2, hm⟩
  have e2 : applyField { Headers := none, Body := [] } (str "headers")
      (Jval.obj (hs.map fun p => (p.1, Jval.str p.2))) =
      .ok { Headers := some m2, Body := [] } := by
    unfold applyField
    rw [if_pos (show foldEq (str "headers") (str "headers") = true from by decide)]
    show (match unmarshalHeaders [] (hs.map fun p => (p.1, Jval.str p.2)) with
      | .ok m => Except.ok ({ Headers := some m, Body := [] } : JSONResponse)
      | .error e => Except.error e) = _
    rw [hm]
  have e1 : unmarshalResp (Jval.obj
      [(str "headers", Jval.obj (hs.map fun p => (p.1, Jval.str p.2))),
       (str "body", Jval.str [])]) = .ok { Headers := some m2, Body := [] } := by
    show (match applyField { Headers := none, Body := [] } (str "headers")
        (Jval.obj (hs.map fun p => (p.1, Jval.str p.2))) with
      | .ok r2 => applyFields r2 [(str "body", Jval.str [])]
      | .error e => Except.error e) = _
    rw [e2]
    rfl
  unfold validateJval
  rw [e1]
  rfl

theorem validateJval_empty_headers (b : List Char) :
    validateJval (Jval.obj [(str "headers", Jval.obj []), (str "body", Jval.str b)]) =
      if b = [] then some (VErr.validation [str "Body"]) else none := by
  have e1 : unmarshalResp (Jval.obj [(str "headers", Jval.obj []), (str "body", Jval.str b)]) =
      .ok { Headers := some [], Body := b } := rfl
  unfold validateJval
  rw [e1]
  show (match requiredFailures { Headers := some [], Body := b } with
    | [] => none
    | fs => some (VErr.validation fs)) = _
  by_cases hb : b = []
  · subst hb; rfl
  · have e3 : requiredFailures { Headers := some [], Body := b } = [] := by
      simp [requiredFailures, hb]
    rw [e3, if_neg hb]

/-! ## The claims -/

/-- C1: for every provider string, `CreateMessageContent` returns the
two messages `[System, Human]` (system prompt, then the user prompt with
the serialized request substituted) when the provider has the
system-prompt capability, and exactly one Human message whose text is
the system prompt, a newline and the user prompt concatenated when it
does not. -/
theorem claim1_create_message_content (httpReq sys tpl provider : List Char) :
    (supportsSystemPrompt provider = true →
      CreateMessageContent httpReq sys tpl provider =
        [{ Role := ChatMessageType.system, Text := sys },
         { Role := ChatMessageType.human, Text := sprintf1 tpl (trimSpace httpReq) }]) ∧
    (supportsSystemPrompt provider = false →
      CreateMessageContent httpReq sys tpl provider =
        [{ Role := ChatMessageType.human,
           Text := sys ++ nlC :: sprintf1 tpl (trimSpace httpReq) }]) := by
  constructor <;> intro h <;> simp [CreateMessageContent, h]

/-- C1 witness: the two branches at the concrete providers `openai`
(capability) and `googleai` (no capability). -/
theorem claim1_witness :
    CreateMessageContent (str " GET / ") (str "SYS") (str "req: %s") (str "openai") =
      [{ Role := ChatMessageType.system, Text := str "SYS" },
       { Role := ChatMessageType.human,
         Text := sprintf1 (str "req: %s") (trimSpace (str " GET / ")) }] ∧
    CreateMessageContent (str " GET / ") (str "SYS") (str "req: %s") (str "googleai") =
      [{ Role := ChatMessageType.human,
         Text := str "SYS" ++ nlC :: sprintf1 (str "req: %s") (trimSpace (str " GET / ")) }] :=
  ⟨(claim1_create_message_content (str " GET / ") (str "SYS") (str "req: %s")
      (str "openai")).1 (by decide),
   (claim1_create_message_content (str " GET / ") (str "SYS") (str "req: %s")
      (str "googleai")).2 (by decide)⟩

/-- C2 counterexample: the claim says an interior triple backtick is
left unchanged, but `cleanResponse` deletes it: on the input `a` + three
backticks + `b` the output is `ab`, not the unchanged input. -/
theorem claim2_counterexample :
    cleanResponse (str "a```b") = str "ab" ∧ str "ab" ≠ str "a```b" := by decide

/-- C2 (amended): the cleaning step removes one leading fence marker
(optionally tagged json) and then every further triple-backtick
occurrence anywhere in the text, leftmost and non-overlapping —
including interior and trailing fences — then trims surrounding white
space, in a single non-recursive pass.  Characters not belonging to a
removed marker are preserved in order, and on text whose body holds no
triple backtick the behavior coincides with the original claim: a
leading (optionally json-tagged) fence and the trailing fence are
removed and the rest is trimmed.  (`hj` excludes a body starting with
the letters `json`, which the regex would absorb into the tag.) -/
theorem claim2_cleaning_amended (s body : List Char)
    (hb : hasTriple body = false) (hj : body.take 4 ≠ str "json") :
    cleanResponse (fenceJson ++ body ++ fence) = trimSpace body ∧
    cleanResponse (fence ++ body ++ fence) = trimSpace body ∧
    (hasTriple s = false → cleanResponse s = trimSpace s) ∧
    (stripTicks (dropLeadingFence s)).Sublist s ∧
    hasTriple (stripTicks (dropLeadingFence s)) = false := by
  refine ⟨?_, ?_, fun hs => cleanResponse_of_noTriple s hs, ?_, stripTicks_noTriple _⟩
  · unfold cleanResponse
    rw [List.append_assoc, dropLeadingFence_json, stripTicks_append_fence body hb]
  · unfold cleanResponse
    rw [List.append_assoc, dropLeadingFence_plain (body ++ fence) (take4_append_fence body hj),
      stripTicks_append_fence body hb]
  · unfold dropLeadingFence
    by_cases h7 : s.take 7 = fenceJson
    · rw [if_pos h7]
      exact (stripTicks_sublist (s.drop 7)).trans (List.drop_sublist 7 s)
    · rw [if_neg h7]
      by_cases h3 : s.take 3 = fence
      · rw [if_pos h3]
        exact (stripTicks_sublist (s.drop 3)).trans (List.drop_sublist 3 s)
      · rw [if_neg h3]
        exact stripTicks_sublist s

/-- C2 witness: the amended statement at the concrete inputs `a` + two
backticks + `b` (for the general conjuncts) and body `hello` (for the
fenced equations). -/
theorem claim2_witness :
    cleanResponse (fenceJson ++ str "hello" ++ fence) = trimSpace (str "hello") ∧
    cleanResponse (fence ++ str "hello" ++ fence) = trimSpace (str "hello") ∧
    (hasTriple (str "a``b") = false → cleanResponse (str "a``b") = trimSpace (str "a``b")) ∧
    (stripTicks (dropLeadingFence (str "a``b"))).Sublist (str "a``b") ∧
    hasTriple (stripTicks (dropLeadingFence (str "a``b"))) = false :=
  claim2_cleaning_amended (str "a``b") (str "hello") (by decide) (by decide)

/-- C9: on the raw text consisting of a json-tagged fence, a newline,
the document with headers `a: b` and body `x`, a newline and a closing
fence, cleaning yields exactly that document and validation of the
cleaned string succeeds. -/
theorem claim9_concrete_clean_validate :
    cleanResponse (str "```json\n\x7b\"headers\":\x7b\"a\":\"b\"\x7d,\"body\":\"x\"\x7d\n```") =
      str "\x7b\"headers\":\x7b\"a\":\"b\"\x7d,\"body\":\"x\"\x7d" ∧
    ValidateJSON (str "\x7b\"headers\":\x7b\"a\":\"b\"\x7d,\"body\":\"x\"\x7d") = none := by
  decide

/-- C10: the cleaning step is idempotent: applying `cleanResponse` to
its own output returns the output unchanged. -/
theorem claim10_clean_idempotent (s : List Char) :
    cleanResponse (cleanResponse s) = cleanResponse s := by
  have h := hasTriple_cleanResponse s
  rw [cleanResponse_of_noTriple (cleanResponse s) h]
  unfold cleanResponse
  exact trimSpace_idem _

/-- C3 counterexample: on raw text `not json` generation does fail, but
not with a distinct MalformedJSON error kind: the error is the same
`invalidJSONResponse` wrapping used for schema failures (its first
twenty characters coincide with those of the error for the
missing-fields document), because `GenerateLLMResponse` wraps every
`ValidateJSON` error under the single `invalidJSONResponse` prefix. -/
theorem claim3_counterexample :
    (GenerateLLMResponse (.ok (some { Choices := [{ Content := str "not json" }] }))).2 =
      some (GenErr.invalidJSONResponse VErr.notValidJSON) ∧
    (GenerateLLMResponse
        (.ok (some { Choices := [{ Content := str "\x7b\"headers\":\x7b\x7d\x7d" }] }))).2 =
      some (GenErr.invalidJSONResponse (VErr.validation [str "Body"])) ∧
    (errMsg (GenErr.invalidJSONResponse VErr.notValidJSON)).take 20 =
      (errMsg (GenErr.invalidJSONResponse (VErr.validation [str "Body"]))).take 20 := by
  decide

/-- C3 (amended): when the cleaned response text is not syntactically
valid JSON, generation fails with the `invalidJSONResponse`-wrapped
error whose underlying cause is the literal `input is not valid JSON`;
`ValidateJSON` distinguishes this cause from the unmarshalling and
validation causes, but `GenerateLLMResponse` exposes no separate
MalformedJSON kind — all three causes share the `invalidJSONResponse`
wrapping. -/
theorem claim3_malformed_amended (content : List Char) (h1 : content ≠ [])
    (h2 : parseDoc (cleanResponse content) = none) :
    GenerateLLMResponse (.ok (some { Choices := [{ Content := content }] })) =
      (cleanResponse content, some (GenErr.invalidJSONResponse VErr.notValidJSON)) ∧
    renderVErr VErr.notValidJSON = str "input is not valid JSON" := by
  refine ⟨?_, rfl⟩
  have hv : ValidateJSON (cleanResponse content) = some VErr.notValidJSON := by
    unfold ValidateJSON
    rw [h2]
  simp only [GenerateLLMResponse]
  rw [if_neg h1, hv]

/-- C3 witness: the amended statement at the concrete raw text
`not json`. -/
theorem claim3_witness :
    GenerateLLMResponse (.ok (some { Choices := [{ Content := str "not json" }] })) =
      (cleanResponse (str "not json"), some (GenErr.invalidJSONResponse VErr.notValidJSON)) ∧
    renderVErr VErr.notValidJSON = str "input is not valid JSON" :=
  claim3_malformed_amended (str "not json") (by decide) rfl

/-- C4 counterexample: with the headers mapping `a: b` (which satisfies
its constraint) and body bound to the empty string, the document does
not pass validation: `required` on a string field rejects the zero
value, so `ValidateJSON` reports a validation failure on `Body` and the
pipeline returns the `invalidJSONResponse` error, contradicting the
claimed acceptance. -/
theorem claim4_counterexample :
    ValidateJSON (str "\x7b\"headers\":\x7b\"a\":\"b\"\x7d,\"body\":\"\"\x7d") =
      some (VErr.validation [str "Body"]) ∧
    (GenerateLLMResponse (.ok (some { Choices :=
        [{ Content := str "\x7b\"headers\":\x7b\"a\":\"b\"\x7d,\"body\":\"\"\x7d" }] }))).2 =
      some (GenErr.invalidJSONResponse (VErr.validation [str "Body"])) := by
  decide

/-- C4 (amended): validation rejects a document whose body key is bound
to the empty string: for every headers mapping of string values, the
parsed document with that headers object and body the empty string
fails validation with a `Body` required-field error (the key being
present does not help, since `required` checks the decoded value). -/
theorem claim4_body_required_amended (hs : List (List Char × List Char)) :
    validateJval (Jval.obj
      [(str "headers", Jval.obj (hs.map fun p => (p.1, Jval.str p.2))),
       (str "body", Jval.str [])]) = some (VErr.validation [str "Body"]) :=
  validateJval_body_empty hs

/-- C5 counterexample: the document with an empty headers mapping and
body `x` passes validation (no error, and the pipeline returns the
cleaned string with a nil error): `required` on the decoded map field
only rejects a nil map, and unmarshalling an empty JSON object
allocates a non-nil empty map, contradicting the claimed rejection. -/
theorem claim5_counterexample :
    ValidateJSON (str "\x7b\"headers\":\x7b\x7d,\"body\":\"x\"\x7d") = none ∧
    GenerateLLMResponse (.ok (some { Choices :=
        [{ Content := str "\x7b\"headers\":\x7b\x7d,\"body\":\"x\"\x7d" }] })) =
      (str "\x7b\"headers\":\x7b\x7d,\"body\":\"x\"\x7d", none) := by
  decide

/-- C5 (amended): a syntactically valid document with an empty headers
mapping is accepted whenever the body is a non-empty string, and is
rejected exactly when the body is empty — and then because of `Body`,
not because of the empty headers mapping: unmarshalling the empty
object yields a non-nil map, which satisfies `required`. -/
theorem claim5_empty_headers_amended (b : List Char) :
    validateJval (Jval.obj [(str "headers", Jval.obj []), (str "body", Jval.str b)]) =
      if b = [] then some (VErr.validation [str "Body"]) else none :=
  validateJval_empty_headers b

/-- C6: for every provider string outside the supported enumeration,
`New` returns the `unsupported llm provider` error and no client — the
switch has no fallback arm. -/
theorem claim6_unsupported_provider (p : List Char)
    (h : p ∉ [str "openai", str "googleai", str "gcp-vertex",
      str "anthropic", str "cohere", str "ollama"]) :
    New p = .error (str "unsupported llm provider") := by
  obtain ⟨h1, h2, h3, h4, h5, h6⟩ :
      ¬p = str "openai" ∧ ¬p = str "googleai" ∧ ¬p = str "gcp-vertex" ∧
      ¬p = str "anthropic" ∧ ¬p = str "cohere" ∧ ¬p = str "ollama" := by
    simpa using h
  unfold New
  rw [if_neg h1, if_neg h2, if_neg h3, if_neg h4, if_neg h5, if_neg h6]

/-- C6 witness: the unsupported provider `mistral`. -/
theorem claim6_witness :
    New (str "mistral") = .error (str "unsupported llm provider") :=
  claim6_unsupported_provider (str "mistral") (by decide)

/-- C7: extraction always uses the first choice, and the three
empty-response conditions — nil backend response, empty choice list,
empty content on the first choice — each produce an error whose message
starts with `emptyLLMResponse` and whose full messages are pairwise
distinct. -/
theorem claim7_empty_response_cases :
    GenerateLLMResponse (.ok none) = ([], some GenErr.emptyNilResponse) ∧
    (∀ r : ContentResponse, r.Choices = [] →
      GenerateLLMResponse (.ok (some r)) = ([], some GenErr.emptyNoChoices)) ∧
    (∀ (r : ContentResponse) (c : ContentChoice) (rest : List ContentChoice),
      r.Choices = c :: rest → c.Content = [] →
      GenerateLLMResponse (.ok (some r)) = ([], some GenErr.emptyContent)) ∧
    (∀ (c : ContentChoice) (rest rest2 : List ContentChoice),
      GenerateLLMResponse (.ok (some { Choices := c :: rest })) =
        GenerateLLMResponse (.ok (some { Choices := c :: rest2 }))) ∧
    errMsg GenErr.emptyNilResponse ≠ errMsg GenErr.emptyNoChoices ∧
    errMsg GenErr.emptyNilResponse ≠ errMsg GenErr.emptyContent ∧
    errMsg GenErr.emptyNoChoices ≠ errMsg GenErr.emptyContent ∧
    (errMsg GenErr.emptyNilResponse).take 16 = str "emptyLLMResponse" ∧
    (errMsg GenErr.emptyNoChoices).take 16 = str "emptyLLMResponse" ∧
    (errMsg GenErr.emptyContent).take 16 = str "emptyLLMResponse" := by
  refine ⟨rfl, ?_, ?_, ?_, by decide, by decide, by decide, by decide, by decide, by decide⟩
  · rintro ⟨cs⟩ h
    subst h
    rfl
  · rintro ⟨cs⟩ c rest h hc
    subst h
    simp only [GenerateLLMResponse]
    rw [if_pos hc]
  · intro c rest rest2
    rfl

/-- C7 witness: the no-choices and empty-content conditions at concrete
responses. -/
theorem claim7_witness :
    GenerateLLMResponse (.ok (some ({ Choices := [] } : ContentResponse))) =
      ([], some GenErr.emptyNoChoices) ∧
    GenerateLLMResponse (.ok (some ({ Choices := [{ Content := [] }] } : ContentResponse))) =
      ([], some GenErr.emptyContent) :=
  ⟨claim7_empty_response_cases.2.1 { Choices := [] } rfl,
   claim7_empty_response_cases.2.2.1 { Choices := [{ Content := [] }] }
     { Content := [] } [] rfl rfl⟩

/-- C8: whenever the cleaned text fails `ValidateJSON`, the generation
pipeline still returns the cleaned string alongside the
`invalidJSONResponse` error. -/
theorem claim8_error_returns_cleaned (content : List Char) (e : VErr)
    (h1 : content ≠ []) (h2 : ValidateJSON (cleanResponse content) = some e) :
    GenerateLLMResponse (.ok (some { Choices := [{ Content := content }] })) =
      (cleanResponse content, some (GenErr.invalidJSONResponse e)) := by
  simp only [GenerateLLMResponse]
  rw [if_neg h1, h2]

/-- C8 witness: the raw text that is the missing-body document — cleaning
leaves it unchanged, validation fails, and that very string is returned
with the error. -/
theorem claim8_witness :
    GenerateLLMResponse (.ok (some { Choices :=
        [{ Content := str "\x7b\"headers\":\x7b\x7d\x7d" }] })) =
      (str "\x7b\"headers\":\x7b\x7d\x7d",
       some (GenErr.invalidJSONResponse (VErr.validation [str "Body"]))) := by
  have h := claim8_error_returns_cleaned (str "\x7b\"headers\":\x7b\x7d\x7d")
    (VErr.validation [str "Body"]) (by decide) (by decide)
  rw [show cleanResponse (str "\x7b\"headers\":\x7b\x7d\x7d") =
    str "\x7b\"headers\":\x7b\x7d\x7d" from by decide] at h
  exact h
